import Mathlib

/-!
# Shallow embedding of the `toh` HTTP tunnel (pzeus/tcpmux)

This file embeds the parts of the source that the verified claims are
about:

* `src/toh/read_conn.go` — the read side `readConn`: counter-ordered
  reassembly of frames (`readLoopRearrange`), the blocking `Read`,
  `feedError` and `close`.
* `src/unnamed/part_000` (second, AES-based revision of the client) —
  `ClientConn`: `Dial` key derivation, `Write` backpressure,
  `sendWriteBuf` retry/atomicity, `Close` idempotence, the adaptive
  `pendingSize` threshold.
* `src/toh/orch.go` — the orchestrator's dispatch of frames parsed from a
  multiplexed poll response.
* `src/toh/listen.go` — `Listen` key derivation.

Bytes are modelled as `Nat`, byte strings as `List Nat`.  Machine
integers that can overflow in a way the claims touch (the client write
counter, a `uint32`) are modelled as `Nat` with an explicit `% 2 ^ 32`.
Go errors are an enumeration of the error values the embedded code
creates.  The Go channel of in-flight response bodies (`respCh`) is
modelled as a list plus a closed flag; the scheduler and wait-object
utilities are external collaborators (spec §4.2/§4.3) and only the state
they directly toggle on the connection (cancelled tick, wait deadline
forced to now) is modelled.
-/

namespace Toh

/-- A protocol frame.  The frame codec source file is not under `src/`;
the fields are taken from their uses in `src/toh/read_conn.go`,
`src/toh/orch.go` and `src/unnamed/part_000` (`f.idx`, `f.connIdx`,
`f.options`, `f.data`), matching the wire layout in spec §6
(`idx(4) || connIdx(8) || options(2) || data_len(4) || data`).  The
`next` chain pointer is serialization-only and is not needed by the
embedded operations, which receive parsed single frames. -/
structure frame where
  idx : Nat
  connIdx : Nat
  options : Nat
  data : List Nat
deriving DecidableEq, Repr

/-- Modelled from the spec: the option bitfield (§3) — `optHello`,
first-contact frame.  The constants' source file is not under `src/`;
the spec says `options` is a bitfield of distinct recognized bits, so
the bits are modelled as distinct powers of two. -/
def optHello : Nat := 1

/-- Modelled from the spec: the option bitfield (§3) — `optClosed`,
peer has closed its side of the connection. -/
def optClosed : Nat := 2

/-- Modelled from the spec: the option bitfield (§3) — `optPing`,
orchestrator poll envelope. -/
def optPing : Nat := 4

/-- Modelled from the spec: the option bitfield (§3) — `optSyncCtr`,
counter checkpoint. -/
def optSyncCtr : Nat := 8

/-- Modelled from the spec: the option bitfield (§3) — `optSyncConnIdx`,
scopes the chained frames to a connection. -/
def optSyncConnIdx : Nat := 16

/-- `MaxWriteBufferSize = 1024 * 1024 * 1` (`src/unnamed/part_000`). -/
def MaxWriteBufferSize : Nat := 1024 * 1024 * 1

/-- `InactivePurge = time.Minute`, in nanoseconds
(`src/unnamed/part_000`). -/
def InactivePurge : Nat := 60 * 1000000000

/-- `time.Second` in nanoseconds. -/
def timeSecond : Nat := 1000000000

/-- The Go `error` values created by the embedded code. -/
inductive GoErr where
  /-- `ErrClosedConn = fmt.Errorf("use of closed connection")` -/
  | errClosedConn
  /-- `fmt.Errorf("fatal: unmatched stream index")` -/
  | unmatchedStreamIndex
  /-- `fmt.Errorf("fatal: missing certain frame")` -/
  | missingCertainFrame
  /-- `fmt.Errorf("invalid frames")` -/
  | invalidFrames
  /-- `fmt.Errorf("use if closed connection")` fed by the orchestrator
  when a frame carries `optClosed` (note: a fresh error value, distinct
  from `ErrClosedConn`). -/
  | useIfClosedConnection
  /-- an error returned by the HTTP carrier (`client.Do` failure or a
  non-200 status), tagged by an arbitrary identifier -/
  | carrier (n : Nat)
deriving DecidableEq, Repr

/-- The state of a `readConn` (`src/toh/read_conn.go:19-32`).  The Go
`futureframes map[uint64]frame` always maps `f.idx ↦ f` (the only
insertion is `c.futureframes[f.idx] = f`), so it is represented as the
list of stored frames, keyed by their `idx` field; `futureSize` is the
Go `int` (signed).  `framesChClosed` records `close(c.frames)` and
`waitDeadlineNow` records `c.ready.SetWaitDeadline(time.Now())`, the two
effects of `close()` besides the `closed` flag. -/
structure readConn where
  counter : Nat
  buf : List Nat
  futureframes : List frame
  futureSize : Int
  err : Option GoErr
  closed : Bool
  framesChClosed : Bool
  waitDeadlineNow : Bool
  idx : Nat
deriving DecidableEq, Repr

/-- `newReadConn` (`src/toh/read_conn.go:34-46`): zero counter, empty
buffer, empty future map, open, no error. -/
def newReadConn (idx : Nat) : readConn :=
  ⟨0, [], [], 0, none, false, false, false, idx⟩

/-- `readConn.close` (`src/toh/read_conn.go:101-110`): idempotent; sets
`closed`, closes the frames channel, forces the wait deadline to now. -/
def rcClose (c : readConn) : readConn :=
  if c.closed then c
  else { c with closed := true, framesChClosed := true, waitDeadlineNow := true }

/-- `readConn.feedError` (`src/toh/read_conn.go:95-99`): store the error
(sticky), then `close()`.  (The `ready.Touch` wake-up is a wait-object
effect with no further state here.) -/
def feedError (e : GoErr) (c : readConn) : readConn :=
  rcClose { c with err := some e }

/-- `c.futureframes[f.idx] = f` — Go map insertion (overwrites any
existing entry with the same key). -/
def futInsert (f : frame) (m : List frame) : List frame :=
  f :: m.filter (fun g => g.idx ≠ f.idx)

/-- `f, ok := c.futureframes[idx]` — Go map lookup. -/
def futLookup (k : Nat) (m : List frame) : Option frame :=
  m.find? (fun g => g.idx == k)

/-- `delete(c.futureframes, k)` — Go map deletion. -/
def futErase (k : Nat) (m : List frame) : List frame :=
  m.filter (fun g => g.idx ≠ k)

/-- The inner drain loop of `readLoopRearrange`
(`src/toh/read_conn.go:137-153`): repeatedly take `idx := counter+1`
from the future map, appending its data to `buf` and advancing
`counter`; when the next frame is missing, signal fatal (`true`) iff
`futureSize > MaxWriteBufferSize`, else stop normally.  The loop
strictly shrinks the map at every iteration, so it is written with
explicit fuel; `drainLoop` supplies fuel `|futureframes| + 1`, which is
never exhausted. -/
def drainAux : Nat → readConn → readConn × Bool
  | 0, c => (c, false)
  | fuel + 1, c =>
    match futLookup (c.counter + 1) c.futureframes with
    | some f =>
        drainAux fuel
          { c with
            buf := c.buf ++ f.data
            counter := f.idx
            futureframes := futErase f.idx c.futureframes
            futureSize := c.futureSize - f.data.length }
    | none =>
        if c.futureSize > (MaxWriteBufferSize : Int) then (c, true) else (c, false)

/-- The drain loop with sufficient fuel. -/
def drainLoop (c : readConn) : readConn × Bool :=
  drainAux (c.futureframes.length + 1) c

/-- One iteration of `readLoopRearrange`'s body for a received frame
(`src/toh/read_conn.go:117-156`).  Returns the new state and whether
the loop continues: `f.connIdx != c.idx` feeds a fatal error and
returns; `f.idx <= c.counter` returns (terminating the loop — the Go
code does `return`, not `continue`); otherwise the frame is stored,
`futureSize` grows by `len(f.data)`, and the drain loop runs, feeding
`"fatal: missing certain frame"` on overflow. -/
def readLoopStep (c : readConn) (f : frame) : readConn × Bool :=
  if f.connIdx ≠ c.idx then (feedError .unmatchedStreamIndex c, false)
  else if f.idx ≤ c.counter then (c, false)
  else
    let c1 := { c with
      futureframes := futInsert f c.futureframes
      futureSize := c.futureSize + f.data.length }
    match drainLoop c1 with
    | (c2, true) => (feedError .missingCertainFrame c2, false)
    | (c2, false) => (c2, true)

/-- `readLoopRearrange` (`src/toh/read_conn.go:112-158`) run over a
sequence of frames received from the channel, stopping when an
iteration returns. -/
def readLoopRun (c : readConn) : List frame → readConn
  | [] => c
  | f :: fs =>
    match readLoopStep c f with
    | (c', true) => readLoopRun c' fs
    | (c', false) => c'

/-- Outcome of one `readConn.Read` attempt. -/
inductive readResult where
  /-- `return 0, ErrClosedConn` -/
  | closedErr
  /-- `return 0, c.err` -/
  | sticky (e : GoErr)
  /-- `return 0, &timeoutError{}` -/
  | timedOut
  /-- `n = copy(p, c.buf); c.buf = c.buf[n:]` -/
  | bytes (bs : List Nat)
  /-- falls through to `c.ready.Wait()` -/
  | wouldBlock
deriving DecidableEq, Repr

/-- One pass of `readConn.Read` (`src/toh/read_conn.go:160-194`): the
checks in source order — `closed` first, then the sticky `err`, then
the deadline (`ready.IsTimedout()`, passed in as `deadlinePassed`),
then buffered bytes (`copy` = take/drop of `len(p) = plen` bytes);
otherwise the caller would block on the wait object. -/
def rcRead (c : readConn) (plen : Nat) (deadlinePassed : Bool) :
    readResult × readConn :=
  if c.closed then (.closedErr, c)
  else
    match c.err with
    | some e => (.sticky e, c)
    | none =>
      if deadlinePassed then (.timedOut, c)
      else if c.buf.length > 0 then
        (.bytes (c.buf.take plen), { c with buf := c.buf.drop plen })
      else (.wouldBlock, c)

/-- An entry of `respCh`: `respNode{r: body, f: frame}`
(`src/unnamed/part_000`); `r` is an opaque response-body handle. -/
structure respNode where
  r : Option Nat
  f : frame
deriving DecidableEq, Repr

/-- The Go zero value of `frame`. -/
def zeroFrame : frame := ⟨0, 0, 0, []⟩

/-- The state of a `ClientConn` (`src/unnamed/part_000`, second
revision).  `writeCounter` is `write.counter` (a `uint32`), `writeBuf`
is `write.buf`, `pendingSize` is `write.survey.pendingSize`, `respCh`
is the channel content with `respChClosed`/`respChOnceDone` for
`close(respCh)` under `respChOnce`, `schedActive` for the pending
scheduled tick, `sentClosedFrame` for the best-effort `optClosed`
send issued on close. -/
structure ClientConn where
  idx : Nat
  writeCounter : Nat
  writeBuf : List Nat
  pendingSize : Nat
  respCh : List respNode
  respChClosed : Bool
  respChOnceDone : Bool
  schedActive : Bool
  sentClosedFrame : Bool
  read : readConn
deriving DecidableEq, Repr

/-- `newClientConn` (`src/unnamed/part_000:219-245`): `pendingSize = 1`,
fresh read side, scheduled tick armed, `respCh` open. -/
def newClientConn (idx : Nat) : ClientConn :=
  ⟨idx, 0, [], 1, [], false, false, true, false, newReadConn idx⟩

/-- `ClientConn.Close` (`src/unnamed/part_000:269-281`): cancel the
scheduled tick, close the read side, and — under `respChOnce`, hence at
most once — close `respCh` and issue the best-effort `optClosed`
frame. -/
def ClientConn.Close (c : ClientConn) : ClientConn :=
  let c1 := { c with schedActive := false, read := rcClose c.read }
  if c1.respChOnceDone then c1
  else { c1 with
    respChOnceDone := true
    respChClosed := true
    sentClosedFrame := true }

/-- Outcome of one pass of `ClientConn.Write`. -/
inductive writeOutcome where
  /-- `return 0, c.read.err` -/
  | errRes (e : GoErr)
  /-- `return 0, ErrClosedConn` -/
  | closedRes
  /-- `time.Sleep(time.Second); goto REWRITE` -/
  | parked
  /-- appended `p`; `return len(p), nil` -/
  | wrote (n : Nat)
deriving DecidableEq, Repr

/-- One pass of `ClientConn.Write`'s `REWRITE` loop
(`src/unnamed/part_000:283-313`): sticky read-side error first, then
`closed`, then the backpressure check `len(buf) > MaxWriteBufferSize`
(strictly greater) which sleeps one second and retries; otherwise `p`
is appended and the write returns `len(p)`.  (The tick reschedule and
the `pendingSize` flush threshold affect only when flushing happens,
not the returned value.) -/
def writeIter (c : ClientConn) (p : List Nat) : ClientConn × writeOutcome :=
  match c.read.err with
  | some e => (c, .errRes e)
  | none =>
    if c.read.closed then (c, .closedRes)
    else if c.writeBuf.length > MaxWriteBufferSize then (c, .parked)
    else ({ c with writeBuf := c.writeBuf ++ p }, .wrote p.length)

/-- The `REWRITE` retry loop of `ClientConn.Write`: the connection state
is re-read after each 1-second sleep; `states` is the sequence of
states observed at successive iterations.  Returns the first
non-parked outcome, or `none` if every observed state parked. -/
def writeRetry (p : List Nat) : List ClientConn → Option (ClientConn × writeOutcome)
  | [] => none
  | c :: rest =>
    match writeIter c p with
    | (_, .parked) => writeRetry p rest
    | r => some r

/-- `if c.write.survey.pendingSize *= 2; c.write.survey.pendingSize >
1024 { c.write.survey.pendingSize = 1024 }`
(`src/unnamed/part_000:334-336`). -/
def capDouble (p : Nat) : Nat :=
  if p * 2 > 1024 then 1024 else p * 2

/-- The reset `c.write.survey.pendingSize = 1` performed by the
1-second tick callbacks rescheduled in `Write` and `schedSending`
(`src/unnamed/part_000:300-303,324-327`). -/
def tickReset (_p : Nat) : Nat := 1

/-- The two mutations `pendingSize` undergoes after initialization. -/
inductive pendingOp where
  /-- entry to `sendWriteBuf` -/
  | double
  /-- a 1-second idle tick callback -/
  | reset
deriving DecidableEq, Repr

/-- Apply one `pendingSize` mutation. -/
def applyPendingOp (p : Nat) : pendingOp → Nat
  | .double => capDouble p
  | .reset => tickReset p

/-- One POST attempt of `sendWriteBuf`'s retry loop, as observed by the
loop: either `c.send(f)` succeeded with a response body, or it failed
(carrier error or non-200) with `t` the wall-clock time (ns) at the
subsequent `time.Now().After(deadline)` check. -/
inductive postAttempt where
  | success (body : Nat)
  | failAt (t : Nat) (e : GoErr)
deriving DecidableEq, Repr

/-- How a `sendWriteBuf` call ended. -/
inductive sendOutcome where
  /-- early `return` because `c.read.err != nil` -/
  | errSkip
  /-- a POST succeeded: buffer truncated, counter bumped, body enqueued -/
  | sent
  /-- a failure occurred past the deadline: error fed to the read side -/
  | aborted (e : GoErr)
  /-- the supplied attempt trace ran out while the loop was still
  retrying (the Go loop would keep POSTing) -/
  | stillRetrying
deriving DecidableEq, Repr

/-- `c.write.respCh <- respNode{r: resp.Body}` wrapped in
`func() { defer func() { recover() }(); ... }()`
(`src/unnamed/part_000:363-366`): enqueue, but swallow the send if the
channel is already closed. -/
def enqueueResp (c : ClientConn) (n : respNode) : ClientConn :=
  if c.respChClosed then c else { c with respCh := c.respCh ++ [n] }

/-- The retry loop of `sendWriteBuf` (`src/unnamed/part_000:353-369`):
on failure check the deadline (`time.Now().After(deadline)`, strict) —
past it, feed the error to the read side and return, otherwise retry;
on success truncate `buf`, increment the `uint32` counter, enqueue the
response body, and break. -/
def sendLoop (deadline : Nat) (c : ClientConn) :
    List postAttempt → ClientConn × sendOutcome
  | [] => (c, .stillRetrying)
  | .failAt t e :: rest =>
    if t > deadline then ({ c with read := feedError e c.read }, .aborted e)
    else sendLoop deadline c rest
  | .success body :: _ =>
    (enqueueResp
      { c with writeBuf := [], writeCounter := (c.writeCounter + 1) % 2 ^ 32 }
      ⟨some body, zeroFrame⟩, .sent)

/-- `ClientConn.sendWriteBuf` (`src/unnamed/part_000:330-370`), entered
at wall-clock time `entry` (ns): double `pendingSize` capped at 1024;
return early if the read side has a sticky error; otherwise set
`deadline := entry + (InactivePurge - time.Second)` and run the retry
loop over the attempt trace.  (The Go code doubles `pendingSize` before
testing `c.read.err`; the doubling does not touch `read`, so the test
is written first here and the doubled state built in both branches —
the resulting state is identical.) -/
def sendWriteBuf (entry : Nat) (c : ClientConn) (attempts : List postAttempt) :
    ClientConn × sendOutcome :=
  match c.read.err with
  | some _ => ({ c with pendingSize := capDouble c.pendingSize }, .errSkip)
  | none =>
    sendLoop (entry + (InactivePurge - timeSecond))
      { c with pendingSize := capDouble c.pendingSize } attempts

/-- The ASCII bytes of the literal `"0123456789abcdef"`. -/
def keyPad : List Nat :=
  [0x30, 0x31, 0x32, 0x33, 0x34, 0x35, 0x36, 0x37,
   0x38, 0x39, 0x61, 0x62, 0x63, 0x64, 0x65, 0x66]

/-- The key `Dial` passes to `aes.NewCipher`:
`[]byte(network + "0123456789abcdef")[:16]`
(`src/unnamed/part_000:210-217`). -/
def dialKey (network : List Nat) : List Nat :=
  (network ++ keyPad).take 16

/-- The key `Listen` passes to `aes.NewCipher`:
`[]byte(network + "0123456789abcdef")[:16]`
(`src/toh/listen.go:59`). -/
def listenKey (network : List Nat) : List Nat :=
  (network ++ keyPad).take 16

/-- What the orchestrator's response-parsing goroutine does with one
parsed frame. -/
inductive dispatchAction where
  /-- the frame is discarded -/
  | dropFrame
  /-- `c.read.feedError(...); c.Close(); continue` -/
  | closePeer
  /-- `c.write.respCh <- respNode{f: f}` -/
  | enqueueFrame
deriving DecidableEq, Repr

/-- The dispatch decision for one frame parsed from an orchestrator poll
response (`src/toh/orch.go:71-80`): `if c := conns[f.connIdx]; c != nil
&& !c.read.closed && c.read.err == nil { if f.options == optClosed
{...close...} ; ...enqueue... }` — note the *equality* test on
`options`. -/
def orchDispatch (conns : Nat → Option ClientConn) (f : frame) :
    dispatchAction :=
  match conns f.connIdx with
  | none => .dropFrame
  | some c =>
    if !c.read.closed && c.read.err == none then
      if f.options = optClosed then .closePeer else .enqueueFrame
    else .dropFrame

/-- The effect of the `optClosed` branch on the owning connection
(`src/toh/orch.go:73-76`): feed `"use if closed connection"` to the
read side, then `Close` the connection. -/
def orchApplyClosed (c : ClientConn) : ClientConn :=
  ClientConn.Close { c with read := feedError .useIfClosedConnection c.read }

/-- The effect of the enqueue branch (`src/toh/orch.go:78`):
`c.write.respCh <- respNode{f: f}` (no close-guard at this send). -/
def orchApplyEnqueue (c : ClientConn) (f : frame) : ClientConn :=
  { c with respCh := c.respCh ++ [⟨none, f⟩] }

/-- `mkF cid d j` is the `j`-th payload frame of a connection `cid`: the
writer emits payload frames with `idx = counter+1` starting from
counter 0 and no option bits (`src/unnamed/part_000:342-351`). -/
def mkF (cid : Nat) (d : Nat → List Nat) (j : Nat) : frame :=
  ⟨j, cid, 0, d j⟩

/-- `d_1 ++ d_2 ++ ... over a list of indices` — the concatenation of
per-frame payloads. -/
def catMap (d : Nat → List Nat) : List Nat → List Nat
  | [] => []
  | j :: js => d j ++ catMap d js

/-- Total payload bytes of the frames stored in a future map. -/
def sumData (m : List frame) : Nat :=
  (m.map (fun g => g.data.length)).sum

/-! ## Small facts about `feedError`, `rcClose`, `sendLoop` -/

lemma feedError_closed (e : GoErr) (c : readConn) :
    (feedError e c).closed = true := by
  unfold feedError rcClose
  split <;> simp_all

lemma feedError_err (e : GoErr) (c : readConn) :
    (feedError e c).err = some e := by
  unfold feedError rcClose
  split <;> rfl

lemma rcClose_closed (c : readConn) : (rcClose c).closed = true := by
  unfold rcClose
  split <;> simp_all

lemma rcClose_err (c : readConn) : (rcClose c).err = c.err := by
  unfold rcClose
  split <;> rfl

lemma sendLoop_pendingSize (deadline : Nat) (c : ClientConn)
    (atts : List postAttempt) :
    ((sendLoop deadline c atts).1).pendingSize = c.pendingSize := by
  induction atts generalizing c with
  | nil => rfl
  | cons a rest ih =>
    cases a with
    | failAt t e =>
      unfold sendLoop
      split
      · rfl
      · exact ih c
    | success body =>
      unfold sendLoop enqueueResp
      split <;> rfl

/-! ## C4 — key derivation -/

/-- C4: for every network-name byte string, `Dial` and `Listen` derive
the same AES-128 key, namely the first 16 bytes of the network string
concatenated with the ASCII literal `"0123456789abcdef"`, and that key
is always exactly 16 bytes long. -/
theorem C4_key_derivation (network : List Nat) :
    dialKey network = listenKey network ∧
    (dialKey network).length = 16 ∧
    dialKey network = (network ++ keyPad).take 16 := by
  refine ⟨rfl, ?_, rfl⟩
  simp [dialKey, keyPad, List.length_take]

/-! ## C6 — `pendingSize` bounds -/

lemma pendingFold_bounds (ops : List pendingOp) :
    ∀ p, 1 ≤ p → p ≤ 1024 →
      1 ≤ ops.foldl applyPendingOp p ∧ ops.foldl applyPendingOp p ≤ 1024 := by
  induction ops with
  | nil => exact fun p h1 h2 => ⟨h1, h2⟩
  | cons op rest ih =>
    intro p h1 h2
    have hb : 1 ≤ applyPendingOp p op ∧ applyPendingOp p op ≤ 1024 := by
      cases op with
      | double =>
        simp only [applyPendingOp, capDouble]
        split <;> omega
      | reset =>
        simp only [applyPendingOp, tickReset]
        omega
    exact ih _ hb.1 hb.2

/-- C6: `pendingSize` always lies in `[1, 1024]`: it is `1` at
creation (`newClientConn`), each entry to `sendWriteBuf` doubles it
capping at 1024 (`capDouble`, and nothing else in `sendWriteBuf`
changes it), each idle tick callback resets it to 1 (`tickReset`), and
any sequence of these mutations starting from the initial value stays
within `[1, 1024]`. -/
theorem C6_pendingSize_bounds :
    (∀ i, (newClientConn i).pendingSize = 1) ∧
    (∀ (ops : List pendingOp),
        1 ≤ ops.foldl applyPendingOp (newClientConn 0).pendingSize ∧
        ops.foldl applyPendingOp (newClientConn 0).pendingSize ≤ 1024) ∧
    (∀ entry c atts,
        ((sendWriteBuf entry c atts).1).pendingSize = capDouble c.pendingSize) ∧
    (∀ p, tickReset p = 1) := by
  refine ⟨fun i => rfl, ?_, ?_, fun p => rfl⟩
  · intro ops
    exact pendingFold_bounds ops 1 (by decide) (by decide)
  · intro entry c atts
    cases herr : c.read.err with
    | some e => simp only [sendWriteBuf, herr]
    | none =>
      simp only [sendWriteBuf, herr]
      exact sendLoop_pendingSize _ _ _

/-! ## C2 — duplicate frames terminate the reassembly loop (code bug) -/

/-- The failing input for C2: frame 1, a duplicate of frame 1, then
frame 2. -/
def c2dupFrames : List frame :=
  [⟨1, 9, 0, [170]⟩, ⟨1, 9, 0, [170]⟩, ⟨2, 9, 0, [187]⟩]

/-- C2 (code bug): the spec says a frame with `f.idx ≤ counter` is
dropped and the loop keeps delivering later frames, so feeding
frame 1, a duplicate of frame 1, then frame 2 should leave
`buf = [170, 187]`.  The code instead executes `return` at
`src/toh/read_conn.go:129-133`, terminating `readLoopRearrange`: the
final state equals the state after the first two frames, frame 2 is
never delivered, `buf = [170]` (with no error recorded), while the
same run without the duplicate delivers `[170, 187]`. -/
theorem C2_duplicate_terminates_loop :
    (readLoopRun (newReadConn 9) c2dupFrames).buf = [170] ∧
    (readLoopRun (newReadConn 9) c2dupFrames).counter = 1 ∧
    (readLoopRun (newReadConn 9) c2dupFrames).err = none ∧
    readLoopRun (newReadConn 9) c2dupFrames =
      readLoopRun (newReadConn 9) (c2dupFrames.take 2) ∧
    (readLoopRun (newReadConn 9) [⟨1, 9, 0, [170]⟩, ⟨2, 9, 0, [187]⟩]).buf
      = [170, 187] := by
  decide

/-! ## C3 — what `Read` reports after `feedError` -/

/-- A `readConn` on which `feedError` was called with the error
`"invalid frames"`. -/
def c3state : readConn := feedError .invalidFrames (newReadConn 5)

/-- C3 counterexample: after `feedError(invalid frames)` on a fresh
`readConn`, the sticky error is stored and the connection is closed,
but `Read` reports `ErrClosedConn`, not the sticky error — the
`c.closed` check precedes the `c.err` check in
`src/toh/read_conn.go:162-168`. -/
theorem C3_counterexample :
    c3state.err = some .invalidFrames ∧
    c3state.closed = true ∧
    (rcRead c3state 8 false).1 = .closedErr ∧
    (rcRead c3state 8 false).1 ≠ .sticky .invalidFrames := by
  decide

/-- C3 (amended): after `feedError e`, every subsequent `Read` returns
`(0, ErrClosedConn)` — the `closed` flag set by `feedError` is checked
first and takes precedence over the sticky error in what `Read`
reports — while on the write path the sticky error takes precedence:
`Write` returns `(0, e)`. -/
theorem C3_closed_precedence :
    (∀ (c : readConn) (e : GoErr) (plen : Nat) (dl : Bool),
        (rcRead (feedError e c) plen dl).1 = .closedErr) ∧
    (∀ (c : ClientConn) (e : GoErr) (p : List Nat),
        (writeIter { c with read := feedError e c.read } p).2 = .errRes e) := by
  constructor
  · intro c e plen dl
    unfold rcRead
    rw [feedError_closed]
    rfl
  · intro c e p
    unfold writeIter
    rw [show ({ c with read := feedError e c.read } : ClientConn).read.err
          = some e from feedError_err e c.read]

/-! ## C5 — write backpressure is strict (`>`), not at (`≥`) the bound -/

/-- A connection whose write buffer holds exactly
`MaxWriteBufferSize` bytes. -/
def c5boundary : ClientConn :=
  { newClientConn 1 with writeBuf := List.replicate MaxWriteBufferSize 0 }

/-- C5 counterexample: with the buffer at exactly `MaxWriteBufferSize`
bytes (claimed to park the caller), `Write` does **not** park: the
check at `src/unnamed/part_000:293` is `len(buf) > MaxWriteBufferSize`,
so the bytes are appended and the buffer grows past the bound. -/
theorem C5_counterexample :
    c5boundary.writeBuf.length = MaxWriteBufferSize ∧
    (writeIter c5boundary [42]).2 = .wrote 1 ∧
    (writeIter c5boundary [42]).2 ≠ .parked ∧
    (writeIter c5boundary [42]).1.writeBuf.length = MaxWriteBufferSize + 1 := by
  have hb : c5boundary.writeBuf.length = MaxWriteBufferSize := by
    simp [c5boundary]
  have hiter : writeIter c5boundary [42]
      = ({ c5boundary with writeBuf := c5boundary.writeBuf ++ [42] }, .wrote 1) := by
    unfold writeIter
    rw [show c5boundary.read.err = none from rfl]
    simp [show c5boundary.read.closed = false from rfl, hb]
  refine ⟨hb, by rw [hiter], by rw [hiter]; decide, ?_⟩
  rw [hiter]
  simp [hb]

/-- C5 (amended): the caller is parked (with the 1-second sleep-retry
loop appending nothing) precisely when the buffer holds **strictly
more** than `MaxWriteBufferSize` bytes; whenever the buffer is at or
below the bound the bytes are appended; and `Write` never returns an
error due to buffer overflow — an `errRes` outcome only reports a
pre-existing sticky read-side error. -/
theorem C5_backpressure_strict :
    (∀ (states : List ClientConn) (p : List Nat),
        (∀ c ∈ states, c.read.err = none ∧ c.read.closed = false ∧
            MaxWriteBufferSize < c.writeBuf.length) →
        writeRetry p states = none) ∧
    (∀ (c : ClientConn) (p : List Nat),
        c.read.err = none → c.read.closed = false →
        c.writeBuf.length ≤ MaxWriteBufferSize →
        writeIter c p = ({ c with writeBuf := c.writeBuf ++ p }, .wrote p.length)) ∧
    (∀ (c : ClientConn) (p : List Nat) (e : GoErr),
        (writeIter c p).2 = .errRes e → c.read.err = some e) := by
  refine ⟨?_, ?_, ?_⟩
  · intro states p h
    induction states with
    | nil => rfl
    | cons c rest ih =>
      have hc := h c (by simp)
      have hstep : writeIter c p = (c, .parked) := by
        unfold writeIter
        rw [hc.1]
        simp [hc.2.1, hc.2.2]
      unfold writeRetry
      rw [hstep]
      exact ih fun c' hc' => h c' (by simp [hc'])
  · intro c p herr hcl hlen
    unfold writeIter
    rw [herr]
    simp [hcl, Nat.not_lt.mpr hlen]
  · intro c p e h
    cases herr : c.read.err with
    | some e' =>
      simp only [writeIter, herr] at h
      injection h with h'
      rw [h']
    | none =>
      simp only [writeIter, herr] at h
      split at h
      · simp at h
      · split at h <;> simp at h

/-- A connection whose write buffer strictly exceeds
`MaxWriteBufferSize`. -/
def c5big : ClientConn :=
  { newClientConn 1 with writeBuf := List.replicate (MaxWriteBufferSize + 1) 0 }

/-- Witness for C5: a concrete over-full connection satisfies the
hypotheses, and the retry loop parks it (appending nothing). -/
theorem C5_backpressure_strict_witness :
    (∀ c ∈ [c5big], c.read.err = none ∧ c.read.closed = false ∧
        MaxWriteBufferSize < c.writeBuf.length) ∧
    writeRetry [9] [c5big] = none := by
  have h : ∀ c ∈ [c5big], c.read.err = none ∧ c.read.closed = false ∧
      MaxWriteBufferSize < c.writeBuf.length := by
    intro c hc
    rw [List.mem_singleton] at hc
    subst hc
    refine ⟨rfl, rfl, ?_⟩
    simp [c5big]
  exact ⟨h, C5_backpressure_strict.1 [c5big] [9] h⟩

/-! ## C9 — orchestrator dispatch tests `options` by equality -/

/-- A poll map owning exactly connection 7. -/
def c9conns : Nat → Option ClientConn :=
  fun i => if i = 7 then some (newClientConn 7) else none

/-- A frame whose options *include* the `optClosed` bit but are not
exactly `optClosed`. -/
def c9frame : frame := ⟨3, 7, optClosed ||| optHello, []⟩

/-- C9 counterexample: the dispatch at `src/toh/orch.go:72` compares
`f.options == optClosed` by equality; a frame whose options include the
`optClosed` bit together with another bit is *enqueued*, not treated as
a peer close, while the same frame with options exactly `optClosed` is
treated as a peer close. -/
theorem C9_counterexample :
    c9frame.options &&& optClosed ≠ 0 ∧
    orchDispatch c9conns c9frame = .enqueueFrame ∧
    orchDispatch c9conns { c9frame with options := optClosed } = .closePeer := by
  decide

/-! ## C10 — `futureSize` vs the stored frames (counterexample) -/

/-- The failing input for C10's claimed equality: the same future frame
(idx 2, two data bytes) delivered twice before frame 1 arrives. -/
def c10dupFrames : List frame := [⟨2, 4, 0, [7, 7]⟩, ⟨2, 4, 0, [7, 7]⟩]

/-- C10 counterexample: after inserting the same future frame twice,
the Go map holds one entry (2 payload bytes) but `futureSize` was
incremented twice (4): the claimed equality between `futureSize` and
the total stored payload fails at the lock release following the
second frame. -/
theorem C10_counterexample :
    (readLoopRun (newReadConn 4) c10dupFrames).futureSize = 4 ∧
    sumData (readLoopRun (newReadConn 4) c10dupFrames).futureframes = 2 ∧
    (readLoopRun (newReadConn 4) c10dupFrames).futureSize ≠
      (sumData (readLoopRun (newReadConn 4) c10dupFrames).futureframes : Int) := by
  decide

/-! ## C7 — `sendWriteBuf` retry, abort atomicity, success effects -/

lemma sendLoop_cons_fail (deadline t : Nat) (e : GoErr) (c : ClientConn)
    (rest : List postAttempt) :
    sendLoop deadline c (.failAt t e :: rest)
      = if t > deadline then ({ c with read := feedError e c.read }, .aborted e)
        else sendLoop deadline c rest := rfl

lemma sendLoop_skip (deadline : Nat) (c : ClientConn)
    (pre rest : List postAttempt)
    (h : ∀ a ∈ pre, ∃ t e, a = .failAt t e ∧ t ≤ deadline) :
    sendLoop deadline c (pre ++ rest) = sendLoop deadline c rest := by
  induction pre with
  | nil => rfl
  | cons a pre' ih =>
    obtain ⟨t, e, rfl, ht⟩ := h a (by simp)
    rw [List.cons_append, sendLoop_cons_fail, if_neg (by omega)]
    exact ih fun a ha => h a (by simp [ha])

/-- C7: in `sendWriteBuf` entered at time `entry` on an error-free
connection, with a prefix of POST failures all observed at or before
`deadline = entry + (InactivePurge - 1s)`: (abort case) a failure
observed strictly past the deadline feeds its error to the read side
and leaves the write buffer, the write counter and `respCh` unchanged;
(success case) the first successful POST truncates the buffer to empty,
increments the `uint32` counter by exactly one (mod `2^32`, hence by
exactly 1 whenever it does not wrap), and enqueues the response body on
`respCh` (swallowed only if `respCh` is already closed). -/
theorem C7_send_retry_atomicity
    (entry : Nat) (c : ClientConn) (pre rest : List postAttempt)
    (hpre : ∀ a ∈ pre, ∃ t' e', a = .failAt t' e' ∧
        t' ≤ entry + (InactivePurge - timeSecond))
    (herr : c.read.err = none) :
    (∀ t e, entry + (InactivePurge - timeSecond) < t →
        (sendWriteBuf entry c (pre ++ .failAt t e :: rest)).2 = .aborted e ∧
        (sendWriteBuf entry c (pre ++ .failAt t e :: rest)).1.writeBuf = c.writeBuf ∧
        (sendWriteBuf entry c (pre ++ .failAt t e :: rest)).1.writeCounter = c.writeCounter ∧
        (sendWriteBuf entry c (pre ++ .failAt t e :: rest)).1.respCh = c.respCh ∧
        (sendWriteBuf entry c (pre ++ .failAt t e :: rest)).1.read.err = some e ∧
        (sendWriteBuf entry c (pre ++ .failAt t e :: rest)).1.read.closed = true) ∧
    (∀ body,
        (sendWriteBuf entry c (pre ++ .success body :: rest)).2 = .sent ∧
        (sendWriteBuf entry c (pre ++ .success body :: rest)).1.writeBuf = [] ∧
        (sendWriteBuf entry c (pre ++ .success body :: rest)).1.writeCounter
          = (c.writeCounter + 1) % 2 ^ 32 ∧
        (c.writeCounter + 1 < 2 ^ 32 →
          (sendWriteBuf entry c (pre ++ .success body :: rest)).1.writeCounter
            = c.writeCounter + 1) ∧
        (c.respChClosed = false →
          (sendWriteBuf entry c (pre ++ .success body :: rest)).1.respCh
            = c.respCh ++ [⟨some body, zeroFrame⟩]) ∧
        (c.respChClosed = true →
          (sendWriteBuf entry c (pre ++ .success body :: rest)).1.respCh
            = c.respCh)) := by
  constructor
  · intro t e ht
    have hrun : sendWriteBuf entry c (pre ++ .failAt t e :: rest)
        = ({ c with pendingSize := capDouble c.pendingSize,
                    read := feedError e c.read }, .aborted e) := by
      simp only [sendWriteBuf, herr]
      rw [sendLoop_skip _ _ pre _ hpre]
      unfold sendLoop
      rw [if_pos (by omega)]
    rw [hrun]
    exact ⟨rfl, rfl, rfl, rfl, feedError_err e c.read, feedError_closed e c.read⟩
  · intro body
    have hrun : sendWriteBuf entry c (pre ++ .success body :: rest)
        = (enqueueResp
            { c with pendingSize := capDouble c.pendingSize,
                     writeBuf := [],
                     writeCounter := (c.writeCounter + 1) % 2 ^ 32 }
            ⟨some body, zeroFrame⟩, .sent) := by
      simp only [sendWriteBuf, herr]
      rw [sendLoop_skip _ _ pre _ hpre]
      rfl
    rw [hrun]
    unfold enqueueResp
    refine ⟨?_, ?_, ?_, ?_, ?_, ?_⟩
    · split <;> rfl
    · split <;> rfl
    · split <;> rfl
    · intro hlt
      have : (c.writeCounter + 1) % 2 ^ 32 = c.writeCounter + 1 :=
        Nat.mod_eq_of_lt hlt
      split <;> simpa using this
    · intro hopen
      rw [if_neg (by rw [hopen]; exact Bool.false_ne_true)]
    · intro hclosed
      rw [if_pos hclosed]

/-- A connection with two pending bytes, used as the C7 witness input. -/
def c7ex : ClientConn := { newClientConn 2 with writeBuf := [5, 6] }

/-- Witness for C7: one pre-deadline failure, then in one trace a
failure past the deadline (buffer kept intact, error fed) and in
another a success (buffer truncated, counter bumped, body enqueued). -/
theorem C7_send_retry_atomicity_witness :
    (∀ a ∈ [postAttempt.failAt 1 (.carrier 0)], ∃ t' e', a = .failAt t' e' ∧
        t' ≤ 0 + (InactivePurge - timeSecond)) ∧
    c7ex.read.err = none ∧
    (sendWriteBuf 0 c7ex
        ([.failAt 1 (.carrier 0)] ++ .failAt InactivePurge (.carrier 1) :: [])).1.writeBuf
      = c7ex.writeBuf ∧
    (sendWriteBuf 0 c7ex
        ([.failAt 1 (.carrier 0)] ++ .success 77 :: [])).1.writeBuf = [] := by
  have hpre : ∀ a ∈ [postAttempt.failAt 1 (.carrier 0)], ∃ t' e',
      a = postAttempt.failAt t' e' ∧ t' ≤ 0 + (InactivePurge - timeSecond) := by
    intro a ha
    rw [List.mem_singleton] at ha
    exact ⟨1, .carrier 0, ha, by decide⟩
  have h := C7_send_retry_atomicity 0 c7ex [.failAt 1 (.carrier 0)] [] hpre rfl
  exact ⟨hpre, rfl,
    (h.1 InactivePurge (.carrier 1) (by decide)).2.1,
    (h.2 77).2.1⟩

/-! ## C8 — `Close` idempotence -/

lemma rcClose_of_closed (c : readConn) (h : c.closed = true) : rcClose c = c := by
  unfold rcClose
  rw [if_pos h]

lemma Close_read (c : ClientConn) :
    (ClientConn.Close c).read = rcClose c.read := by
  obtain ⟨i, wc, wb, ps, rc, rcc, rod, sa, scf, rd⟩ := c
  cases rod <;> rfl

lemma Close_Close (c : ClientConn) :
    ClientConn.Close (ClientConn.Close c) = ClientConn.Close c := by
  obtain ⟨i, wc, wb, ps, rc, rcc, rod, sa, scf, rd⟩ := c
  obtain ⟨ctr, bf, ff, fs, er, cl, fcc, wdn, ridx⟩ := rd
  cases rod <;> cases cl <;> rfl

/-- C8: calling `Close` N ≥ 1 times equals calling it once (so the tick
cancel, the read-side close and the once-guarded `respCh` close take
effect at most once); after the first `Close` every `Read` returns
`ErrClosedConn`, and — on a connection without a pre-existing sticky
read-side error, which `Write` would report instead — every `Write`
returns `ErrClosedConn`. -/
theorem C8_close_idempotent :
    (∀ c, ClientConn.Close (ClientConn.Close c) = ClientConn.Close c) ∧
    (∀ (c : ClientConn) (n : Nat), 1 ≤ n →
        ClientConn.Close^[n] c = ClientConn.Close c) ∧
    (∀ (c : ClientConn) (plen : Nat) (dl : Bool),
        (rcRead (ClientConn.Close c).read plen dl).1 = .closedErr) ∧
    (∀ (c : ClientConn) (p : List Nat), c.read.err = none →
        (writeIter (ClientConn.Close c) p).2 = .closedRes) := by
  refine ⟨Close_Close, ?_, ?_, ?_⟩
  · intro c n hn
    induction n with
    | zero => omega
    | succ m ih =>
      cases Nat.eq_zero_or_pos m with
      | inl h0 => subst h0; rfl
      | inr hpos =>
        rw [Function.iterate_succ_apply', ih hpos, Close_Close]
  · intro c plen dl
    have h : (ClientConn.Close c).read.closed = true := by
      rw [Close_read]; exact rcClose_closed _
    unfold rcRead
    rw [if_pos h]
  · intro c p herr
    have h1 : (ClientConn.Close c).read.err = none := by
      rw [Close_read, rcClose_err, herr]
    have h2 : (ClientConn.Close c).read.closed = true := by
      rw [Close_read]; exact rcClose_closed _
    simp only [writeIter, h1, h2]
    simp

/-- Witness for C8: closing a fresh connection five times equals closing
it once, subsequent reads report `ErrClosedConn`, and subsequent writes
report `ErrClosedConn`. -/
theorem C8_close_idempotent_witness :
    1 ≤ 5 ∧ (newClientConn 3).read.err = none ∧
    ClientConn.Close^[5] (newClientConn 3) = ClientConn.Close (newClientConn 3) ∧
    (rcRead (ClientConn.Close (newClientConn 3)).read 4 false).1 = .closedErr ∧
    (writeIter (ClientConn.Close (newClientConn 3)) [1]).2 = .closedRes :=
  ⟨by decide, rfl,
    C8_close_idempotent.2.1 (newClientConn 3) 5 (by decide),
    C8_close_idempotent.2.2.1 (newClientConn 3) 4 false,
    C8_close_idempotent.2.2.2 (newClientConn 3) [1] rfl⟩

/-! ## C9 — amended dispatch theorem -/

lemma Close_onceDone (c : ClientConn) :
    (ClientConn.Close c).respChOnceDone = true := by
  obtain ⟨i, wc, wb, ps, rc, rcc, rod, sa, scf, rd⟩ := c
  cases rod <;> rfl

/-- C9 (amended): for every frame parsed from an orchestrator poll
response: a frame whose owning connection is absent from the poll map,
or whose read side is closed or carries a sticky error, is dropped; a
frame whose options equal `optClosed` *exactly* (the code compares with
`==`, not a bit test) causes the error to be fed to the owner's read
side and `Close` to be invoked (so the once-guard is consumed); any
other frame is enqueued on the owner's `respCh`. -/
theorem C9_dispatch (conns : Nat → Option ClientConn) (f : frame) :
    (conns f.connIdx = none → orchDispatch conns f = .dropFrame) ∧
    (∀ c, conns f.connIdx = some c →
        (c.read.closed = true ∨ c.read.err ≠ none) →
        orchDispatch conns f = .dropFrame) ∧
    (∀ c, conns f.connIdx = some c →
        c.read.closed = false → c.read.err = none → f.options = optClosed →
        orchDispatch conns f = .closePeer ∧
        (orchApplyClosed c).read.err = some .useIfClosedConnection ∧
        (orchApplyClosed c).read.closed = true ∧
        (orchApplyClosed c).respChOnceDone = true) ∧
    (∀ c, conns f.connIdx = some c →
        c.read.closed = false → c.read.err = none → f.options ≠ optClosed →
        orchDispatch conns f = .enqueueFrame ∧
        orchApplyEnqueue c f = { c with respCh := c.respCh ++ [⟨none, f⟩] }) := by
  refine ⟨?_, ?_, ?_, ?_⟩
  · intro h
    simp only [orchDispatch, h]
  · intro c hc hbad
    simp only [orchDispatch, hc]
    rcases hbad with h | h
    · simp [h]
    · cases herr : c.read.err with
      | none => exact absurd herr h
      | some e => simp [herr]
  · intro c hc hcl herr hopt
    refine ⟨?_, ?_, ?_, Close_onceDone _⟩
    · simp only [orchDispatch, hc]
      simp [hcl, herr, hopt]
    · unfold orchApplyClosed
      rw [Close_read, rcClose_err]
      exact feedError_err _ _
    · unfold orchApplyClosed
      rw [Close_read]
      exact rcClose_closed _
  · intro c hc hcl herr hopt
    constructor
    · simp only [orchDispatch, hc]
      simp [hcl, herr, hopt]
    · rfl

/-- Witness for C9: in a poll map owning connection 7 (open, no error),
a frame with options exactly `optClosed` is dispatched as a peer
close. -/
theorem C9_dispatch_witness :
    c9conns (7 : Nat) = some (newClientConn 7) ∧
    (newClientConn 7).read.closed = false ∧
    (newClientConn 7).read.err = none ∧
    orchDispatch c9conns ⟨3, 7, optClosed, []⟩ = .closePeer ∧
    (orchApplyClosed (newClientConn 7)).read.closed = true :=
  ⟨rfl, rfl, rfl,
    ((C9_dispatch c9conns ⟨3, 7, optClosed, []⟩).2.2.1 (newClientConn 7)
      rfl rfl rfl rfl).1,
    ((C9_dispatch c9conns ⟨3, 7, optClosed, []⟩).2.2.1 (newClientConn 7)
      rfl rfl rfl rfl).2.2.1⟩

/-! ## C10 — future-frames map invariants -/

lemma futLookup_some {k : Nat} {m : List frame} {f : frame}
    (h : futLookup k m = some f) : f ∈ m ∧ f.idx = k := by
  unfold futLookup at h
  refine ⟨List.mem_of_find?_eq_some h, ?_⟩
  have h2 := List.find?_some h
  simpa using h2

lemma mem_futErase {g : frame} {k : Nat} {m : List frame} :
    g ∈ futErase k m ↔ g ∈ m ∧ g.idx ≠ k := by
  unfold futErase
  simp [List.mem_filter]

lemma mem_futInsert {g f : frame} {m : List frame} :
    g ∈ futInsert f m ↔ g = f ∨ (g ∈ m ∧ g.idx ≠ f.idx) := by
  unfold futInsert
  simp [List.mem_filter]

lemma futInsert_of_fresh {f : frame} {m : List frame}
    (h : ∀ g ∈ m, g.idx ≠ f.idx) : futInsert f m = f :: m := by
  unfold futInsert
  rw [List.filter_eq_self.mpr fun a ha => by simpa using h a ha]

lemma sumData_cons (f : frame) (m : List frame) :
    sumData (f :: m) = f.data.length + sumData m := by
  simp [sumData]

lemma sumData_filter_le (p : frame → Bool) (m : List frame) :
    sumData (m.filter p) ≤ sumData m := by
  induction m with
  | nil => simp [sumData]
  | cons g m' ih =>
    rw [List.filter_cons]
    split
    · rw [sumData_cons, sumData_cons]
      omega
    · rw [sumData_cons]
      omega

lemma sumData_futErase {k : Nat} :
    ∀ (m : List frame) (f : frame), (m.map frame.idx).Nodup → f ∈ m →
      f.idx = k → sumData (futErase k m) + f.data.length = sumData m := by
  intro m
  induction m with
  | nil => intro f _ hf; cases hf
  | cons g m' ih =>
    intro f hn hf hk
    rw [List.map_cons, List.nodup_cons] at hn
    rcases List.mem_cons.mp hf with rfl | hfm'
    · have hall : ∀ h ∈ m', h.idx ≠ k := by
        intro h hh hkk
        exact hn.1 (hk ▸ hkk ▸ List.mem_map_of_mem frame.idx hh)
      have h1 : futErase k (f :: m') = futErase k m' := by
        unfold futErase
        rw [List.filter_cons]
        simp [hk]
      have h2 : futErase k m' = m' := by
        unfold futErase
        rw [List.filter_eq_self.mpr fun a ha => by simpa using hall a ha]
      rw [h1, h2, sumData_cons]
      omega
    · have hgk : g.idx ≠ k := by
        intro h
        exact hn.1 (h ▸ hk ▸ List.mem_map_of_mem frame.idx hfm')
      have h1 : futErase k (g :: m') = g :: futErase k m' := by
        unfold futErase
        rw [List.filter_cons]
        simp [hgk]
      rw [h1, sumData_cons, sumData_cons, ← ih f hn.2 hfm' hk]
      omega

lemma idx_futErase_nodup {k : Nat} {m : List frame}
    (h : (m.map frame.idx).Nodup) :
    ((futErase k m).map frame.idx).Nodup :=
  h.sublist ((List.filter_sublist m).map frame.idx)

lemma idx_futInsert_nodup {f : frame} {m : List frame}
    (h : (m.map frame.idx).Nodup) :
    ((futInsert f m).map frame.idx).Nodup := by
  unfold futInsert
  rw [List.map_cons, List.nodup_cons]
  constructor
  · intro hmem
    obtain ⟨g, hg, hgidx⟩ := List.mem_map.mp hmem
    rw [List.mem_filter] at hg
    exact absurd hgidx (by simpa using hg.2)
  · exact h.sublist ((List.filter_sublist m).map frame.idx)

/-- The invariant the reassembly loop maintains on the future map:
pairwise-distinct stored indices, every stored index past the counter,
and `futureSize` at least the stored payload total. -/
def rcInvLe (c : readConn) : Prop :=
  (c.futureframes.map frame.idx).Nodup ∧
  (∀ g ∈ c.futureframes, c.counter < g.idx) ∧
  ((sumData c.futureframes : Int) ≤ c.futureSize)

lemma drainAux_pres (fuel : Nat) :
    ∀ c, rcInvLe c →
      rcInvLe (drainAux fuel c).1 ∧
      (∀ g ∈ (drainAux fuel c).1.futureframes, g ∈ c.futureframes) ∧
      (c.futureSize = (sumData c.futureframes : Int) →
        (drainAux fuel c).1.futureSize
          = (sumData (drainAux fuel c).1.futureframes : Int)) := by
  induction fuel with
  | zero => exact fun c h => ⟨h, fun g hg => hg, fun he => he⟩
  | succ fuel ih =>
    intro c h
    cases hl : futLookup (c.counter + 1) c.futureframes with
    | none =>
      have hid : (drainAux (fuel + 1) c).1 = c := by
        simp only [drainAux, hl]
        split <;> rfl
      rw [hid]
      exact ⟨h, fun g hg => hg, fun he => he⟩
    | some f =>
      obtain ⟨hmem, hidx⟩ := futLookup_some hl
      have hstep : drainAux (fuel + 1) c
          = drainAux fuel
              { c with
                buf := c.buf ++ f.data
                counter := f.idx
                futureframes := futErase f.idx c.futureframes
                futureSize := c.futureSize - f.data.length } := by
        simp only [drainAux, hl]
      have hsum : sumData (futErase f.idx c.futureframes) + f.data.length
          = sumData c.futureframes :=
        sumData_futErase c.futureframes f h.1 hmem rfl
      have hinv' : rcInvLe
          { c with
            buf := c.buf ++ f.data
            counter := f.idx
            futureframes := futErase f.idx c.futureframes
            futureSize := c.futureSize - f.data.length } := by
        refine ⟨idx_futErase_nodup h.1, ?_, ?_⟩
        · intro g hg
          obtain ⟨hgm, hgne⟩ := mem_futErase.mp hg
          have := h.2.1 g hgm
          simp only [hidx]
          omega
        · have := h.2.2
          simp only
          omega
      obtain ⟨h1, h2, h3⟩ := ih _ hinv'
      rw [hstep]
      refine ⟨h1, ?_, ?_⟩
      · intro g hg
        exact (mem_futErase.mp (h2 g hg)).1
      · intro he
        apply h3
        simp only
        omega

lemma feedError_state (e : GoErr) (c : readConn) :
    (feedError e c).futureframes = c.futureframes ∧
    (feedError e c).futureSize = c.futureSize ∧
    (feedError e c).counter = c.counter ∧
    (feedError e c).buf = c.buf := by
  unfold feedError rcClose
  split <;> exact ⟨rfl, rfl, rfl, rfl⟩

lemma readLoopStep_pres (c : readConn) (f : frame) (h : rcInvLe c) :
    rcInvLe (readLoopStep c f).1 ∧
    (∀ g ∈ (readLoopStep c f).1.futureframes, g = f ∨ g ∈ c.futureframes) ∧
    (c.futureSize = (sumData c.futureframes : Int) →
      (∀ g ∈ c.futureframes, g.idx ≠ f.idx) →
      (readLoopStep c f).1.futureSize
        = (sumData (readLoopStep c f).1.futureframes : Int)) := by
  unfold readLoopStep
  by_cases hcm : f.connIdx ≠ c.idx
  · rw [if_pos hcm]
    obtain ⟨hff, hfs, hctr, _⟩ := feedError_state .unmatchedStreamIndex c
    refine ⟨?_, ?_, ?_⟩
    · exact ⟨hff ▸ h.1, fun g hg => hctr ▸ h.2.1 g (hff ▸ hg), by
        rw [hff, hfs]; exact h.2.2⟩
    · intro g hg
      exact Or.inr (hff ▸ hg)
    · intro heq _
      rw [hff, hfs]
      exact heq
  · rw [if_neg hcm]
    by_cases hdup : f.idx ≤ c.counter
    · rw [if_pos hdup]
      exact ⟨h, fun g hg => Or.inr hg, fun heq _ => heq⟩
    · rw [if_neg hdup]
      have hc1 : rcInvLe
          { c with
            futureframes := futInsert f c.futureframes
            futureSize := c.futureSize + f.data.length } := by
        refine ⟨idx_futInsert_nodup h.1, ?_, ?_⟩
        · intro g hg
          rcases mem_futInsert.mp hg with rfl | ⟨hgm, _⟩
          · simp only
            omega
          · exact h.2.1 g hgm
        · have h1 : sumData (futInsert f c.futureframes)
              ≤ f.data.length + sumData c.futureframes := by
            unfold futInsert
            rw [sumData_cons]
            have := sumData_filter_le (fun g => decide (g.idx ≠ f.idx)) c.futureframes
            omega
          have := h.2.2
          simp only
          omega
      have hdr := drainAux_pres
        ((futInsert f c.futureframes).length + 1) _ hc1
      cases hdl : drainLoop
          { c with
            futureframes := futInsert f c.futureframes
            futureSize := c.futureSize + f.data.length } with
      | mk c2 fatal =>
        have hdl' : drainAux ((futInsert f c.futureframes).length + 1)
            { c with
              futureframes := futInsert f c.futureframes
              futureSize := c.futureSize + f.data.length } = (c2, fatal) := hdl
        rw [hdl'] at hdr
        have hfields :
            ((match (c2, fatal) with
              | (c2, true) => (feedError .missingCertainFrame c2, false)
              | (c2, false) => (c2, true)) :
              readConn × Bool).1.futureframes = c2.futureframes ∧
            ((match (c2, fatal) with
              | (c2, true) => (feedError .missingCertainFrame c2, false)
              | (c2, false) => (c2, true)) :
              readConn × Bool).1.futureSize = c2.futureSize ∧
            ((match (c2, fatal) with
              | (c2, true) => (feedError .missingCertainFrame c2, false)
              | (c2, false) => (c2, true)) :
              readConn × Bool).1.counter = c2.counter := by
          cases fatal
          · exact ⟨rfl, rfl, rfl⟩
          · obtain ⟨h1, h2, h3, _⟩ := feedError_state .missingCertainFrame c2
            exact ⟨h1, h2, h3⟩
        simp only [hdl]
        obtain ⟨hf1, hf2, hf3⟩ := hfields
        refine ⟨⟨hf1 ▸ hdr.1.1, fun g hg => hf3 ▸ hdr.1.2.1 g (hf1 ▸ hg), by
          rw [hf1, hf2]; exact hdr.1.2.2⟩, ?_, ?_⟩
        · intro g hg
          exact mem_futInsert.mp (hdr.2.1 g (hf1 ▸ hg)) |>.imp id And.left
        · intro heq hfr
          rw [hf1, hf2]
          apply hdr.2.2
          have hins : futInsert f c.futureframes = f :: c.futureframes :=
            futInsert_of_fresh hfr
          simp only [hins, sumData_cons]
          push_cast
          omega

lemma readLoopRun_invLe (fs : List frame) :
    ∀ c, rcInvLe c → rcInvLe (readLoopRun c fs) := by
  induction fs with
  | nil => exact fun c h => h
  | cons f fs' ih =>
    intro c h
    have hst := (readLoopStep_pres c f h).1
    cases hres : readLoopStep c f with
    | mk c' cont =>
      rw [hres] at hst
      cases cont
      · simp only [readLoopRun, hres]
        exact hst
      · simp only [readLoopRun, hres]
        exact ih c' hst

lemma readLoopRun_invEq (fs : List frame) :
    ∀ (seen : List Nat) (c : readConn),
      rcInvLe c →
      (∀ g ∈ c.futureframes, g.idx ∈ seen) →
      c.futureSize = (sumData c.futureframes : Int) →
      (∀ fr ∈ fs, fr.idx ∉ seen) →
      (fs.map frame.idx).Nodup →
      (readLoopRun c fs).futureSize
          = (sumData (readLoopRun c fs).futureframes : Int) ∧
      (∀ g ∈ (readLoopRun c fs).futureframes,
          g.idx ∈ fs.map frame.idx ++ seen) := by
  induction fs with
  | nil =>
    intro seen c _ hseen heq _ _
    exact ⟨heq, by simpa using hseen⟩
  | cons f fs' ih =>
    intro seen c h hseen heq hfresh hnd
    rw [List.map_cons, List.nodup_cons] at hnd
    have hfr : ∀ g ∈ c.futureframes, g.idx ≠ f.idx := by
      intro g hg hne
      exact hfresh f (List.mem_cons_self f fs') (hne ▸ hseen g hg)
    have hst := readLoopStep_pres c f h
    cases hres : readLoopStep c f with
    | mk c' cont =>
      rw [hres] at hst
      have heq' : c'.futureSize = (sumData c'.futureframes : Int) :=
        hst.2.2 heq hfr
      have hseen' : ∀ g ∈ c'.futureframes, g.idx ∈ f.idx :: seen := by
        intro g hg
        rcases hst.2.1 g hg with rfl | hgm
        · exact List.mem_cons_self _ _
        · exact List.mem_cons_of_mem _ (hseen g hgm)
      cases cont
      · simp only [readLoopRun, hres]
        refine ⟨heq', ?_⟩
        intro g hg
        have := hseen' g hg
        simp only [List.map_cons, List.cons_append]
        rcases List.mem_cons.mp this with h1 | h1
        · exact h1 ▸ List.mem_cons_self _ _
        · exact List.mem_cons_of_mem _ (List.mem_append_right _ h1)
      · simp only [readLoopRun, hres]
        have hrec := ih (f.idx :: seen) c' hst.1 hseen' heq'
          (fun fr hfr' => by
            intro hmem
            rcases List.mem_cons.mp hmem with h1 | h1
            · exact hnd.1 (h1 ▸ List.mem_map_of_mem frame.idx hfr')
            · exact hfresh fr (List.mem_cons_of_mem _ hfr') h1)
          hnd.2
        refine ⟨hrec.1, ?_⟩
        intro g hg
        have := hrec.2 g hg
        simp only [List.map_cons, List.cons_append]
        rcases List.mem_append.mp this with h1 | h1
        · exact List.mem_cons_of_mem _ (List.mem_append_left _ h1)
        · rcases List.mem_cons.mp h1 with h2 | h2
          · exact h2 ▸ List.mem_cons_self _ _
          · exact List.mem_cons_of_mem _ (List.mem_append_right _ h2)

/-- C10 (amended): for every sequence of frames processed by the
reassembly loop of a fresh `readConn`, at every lock release (i.e.
after every processed prefix, each prefix being itself such a
sequence): (1) the future map holds no index at or below `counter`;
(2) `futureSize` is at least the total stored payload; and (3) when the
received frames carry pairwise-distinct `idx` values, `futureSize`
equals the total stored payload exactly.  (The claimed unconditional
equality fails when a pending future frame is received twice — see the
counterexample.) -/
theorem C10_future_invariant (cid : Nat) (fs : List frame) :
    (∀ g ∈ (readLoopRun (newReadConn cid) fs).futureframes,
        (readLoopRun (newReadConn cid) fs).counter < g.idx) ∧
    ((sumData (readLoopRun (newReadConn cid) fs).futureframes : Int)
        ≤ (readLoopRun (newReadConn cid) fs).futureSize) ∧
    ((fs.map frame.idx).Nodup →
      (readLoopRun (newReadConn cid) fs).futureSize
        = (sumData (readLoopRun (newReadConn cid) fs).futureframes : Int)) := by
  have h0 : rcInvLe (newReadConn cid) := by
    refine ⟨?_, ?_, ?_⟩ <;> simp [newReadConn, sumData]
  have h1 := readLoopRun_invLe fs _ h0
  refine ⟨h1.2.1, h1.2.2, ?_⟩
  intro hnd
  exact (readLoopRun_invEq fs [] _ h0 (by simp [newReadConn])
    (by simp [newReadConn, sumData]) (by simp) hnd).1

/-- Witness for C10: two distinct-index future frames (indices 2 and 5,
3 payload bytes in total) leave `futureSize` equal to the stored
payload total. -/
theorem C10_future_invariant_witness :
    (([⟨2, 11, 0, [1, 2]⟩, ⟨5, 11, 0, [3]⟩] : List frame).map frame.idx).Nodup ∧
    (readLoopRun (newReadConn 11)
        [⟨2, 11, 0, [1, 2]⟩, ⟨5, 11, 0, [3]⟩]).futureSize
      = (sumData (readLoopRun (newReadConn 11)
          [⟨2, 11, 0, [1, 2]⟩, ⟨5, 11, 0, [3]⟩]).futureframes : Int) :=
  ⟨by decide, (C10_future_invariant 11 _).2.2 (by decide)⟩

/-! ## C1 — ordered delivery

The writer of a virtual connection emits payload frames `1, 2, …, n`
(`idx = counter + 1` each time).  We show the reassembly loop delivers
their payloads in `idx` order whatever the arrival permutation, provided
the total payload fits the future-frames cap (past the cap the code
deliberately fails fatally, spec §4.4). -/

lemma catMap_append (d : Nat → List Nat) (xs ys : List Nat) :
    catMap d (xs ++ ys) = catMap d xs ++ catMap d ys := by
  induction xs with
  | nil => rfl
  | cons j js ih => simp [catMap, ih]

lemma futLookup_mkF_mem (cid : Nat) (d : Nat → List Nat) :
    ∀ {l : List Nat} {k : Nat}, k ∈ l →
      futLookup k (l.map (mkF cid d)) = some (mkF cid d k) := by
  intro l
  induction l with
  | nil => intro k h; cases h
  | cons j l' ih =>
    intro k h
    by_cases hj : j = k
    · subst hj
      unfold futLookup
      rw [List.map_cons, List.find?_cons_of_pos _ (by simp [mkF])]
    · unfold futLookup at ih ⊢
      rw [List.map_cons, List.find?_cons_of_neg _ (by simp [mkF, hj])]
      exact ih ((List.mem_cons.mp h).resolve_left fun he => hj he.symm)

lemma futLookup_mkF_not_mem (cid : Nat) (d : Nat → List Nat)
    {l : List Nat} {k : Nat} (h : k ∉ l) :
    futLookup k (l.map (mkF cid d)) = none := by
  unfold futLookup
  rw [List.find?_eq_none]
  intro x hx
  obtain ⟨j, hj, rfl⟩ := List.mem_map.mp hx
  simp only [mkF, beq_iff_eq]
  intro he
  exact h (he ▸ hj)

lemma futErase_mkF (cid : Nat) (d : Nat → List Nat) (k : Nat) :
    ∀ (l : List Nat),
      futErase k (l.map (mkF cid d)) = (l.filter (fun j => j ≠ k)).map (mkF cid d) := by
  intro l
  induction l with
  | nil => rfl
  | cons j l' ih =>
    unfold futErase at ih ⊢
    rw [List.map_cons, List.filter_cons, List.filter_cons]
    by_cases hj : j = k
    · subst hj
      rw [if_neg (by simp [mkF]), if_neg (by simp)]
      exact ih
    · rw [if_pos (by simp [mkF, hj]), if_pos (by simp [hj]), List.map_cons, ih]

lemma sum_filter_ne_add (g : Nat → Nat) :
    ∀ (l : List Nat), l.Nodup → ∀ k ∈ l,
      ((l.filter (fun j => j ≠ k)).map g).sum + g k = (l.map g).sum := by
  intro l
  induction l with
  | nil => intro _ k hk; cases hk
  | cons j l' ih =>
    intro hnd k hk
    rw [List.nodup_cons] at hnd
    rw [List.filter_cons]
    rcases List.mem_cons.mp hk with rfl | hk'
    · rw [if_neg (by simp)]
      have hfe : l'.filter (fun x => x ≠ k) = l' :=
        List.filter_eq_self.mpr fun a ha => by
          simp only [decide_not]
          simp
          exact fun he => hnd.1 (he ▸ ha)
      rw [hfe, List.map_cons, List.sum_cons]
      omega
    · have hj : j ≠ k := fun he => hnd.1 (he ▸ hk')
      rw [if_pos (by simp [hj]), List.map_cons, List.sum_cons, List.map_cons,
        List.sum_cons, ← ih hnd.2 k hk']
      omega

lemma filter_ne_length_lt (k : Nat) :
    ∀ (l : List Nat), k ∈ l →
      (l.filter (fun j => j ≠ k)).length < l.length := by
  intro l
  induction l with
  | nil => intro h; cases h
  | cons j l' ih =>
    intro h
    rw [List.filter_cons]
    rcases List.mem_cons.mp h with rfl | hk'
    · rw [if_neg (by simp)]
      have := List.length_filter_le (fun j => decide (j ≠ k)) l'
      simp only [List.length_cons]
      omega
    · by_cases hj : j = k
      · subst hj
        rw [if_neg (by simp)]
        have := List.length_filter_le (fun x => decide (x ≠ j)) l'
        simp only [List.length_cons]
        omega
      · rw [if_pos (by simp [hj])]
        simp only [List.length_cons]
        exact Nat.succ_lt_succ (ih hk')

lemma sum_map_le_range' (g : Nat → Nat) (n : Nat) (l : List Nat)
    (hnd : l.Nodup) (hmem : ∀ j ∈ l, 1 ≤ j ∧ j ≤ n) :
    (l.map g).sum ≤ ((List.range' 1 n).map g).sum := by
  have h1 : l.toFinset.sum g = (l.map g).sum := List.sum_toFinset g hnd
  have h2 : (List.range' 1 n).toFinset.sum g = ((List.range' 1 n).map g).sum :=
    List.sum_toFinset g (List.nodup_range' 1 n)
  rw [← h1, ← h2]
  apply Finset.sum_le_sum_of_subset
  intro x hx
  rw [List.mem_toFinset] at hx ⊢
  have := hmem x hx
  simp only [List.mem_range'_1]
  omega

lemma c1_drainAux (cid : Nat) (d : Nat → List Nat) (n : Nat)
    (hB : ((List.range' 1 n).map (fun j => (d j).length)).sum ≤ MaxWriteBufferSize) :
    ∀ (fuel : Nat) (l : List Nat) (c : readConn),
      l.length < fuel →
      l.Nodup →
      (∀ j ∈ l, c.counter + 1 ≤ j ∧ j ≤ n) →
      c.counter ≤ n →
      c.futureframes = l.map (mkF cid d) →
      c.futureSize = (((l.map (fun j => (d j).length)).sum : Nat) : Int) →
      ∃ (k' : Nat) (l' : List Nat),
        (drainAux fuel c).2 = false ∧
        (drainAux fuel c).1.counter = k' ∧
        (drainAux fuel c).1.buf
          = c.buf ++ catMap d (List.range' (c.counter + 1) (k' - c.counter)) ∧
        (drainAux fuel c).1.futureframes = l'.map (mkF cid d) ∧
        (drainAux fuel c).1.futureSize
          = (((l'.map (fun j => (d j).length)).sum : Nat) : Int) ∧
        (drainAux fuel c).1.err = c.err ∧
        (drainAux fuel c).1.closed = c.closed ∧
        (drainAux fuel c).1.idx = c.idx ∧
        c.counter ≤ k' ∧ k' ≤ n ∧ l'.Nodup ∧
        (∀ j ∈ l', k' + 2 ≤ j ∧ j ≤ n) ∧
        (∀ j, j ∈ l ↔ ((c.counter + 1 ≤ j ∧ j ≤ k') ∨ j ∈ l')) := by
  intro fuel
  induction fuel with
  | zero => intro l c hlen; omega
  | succ fuel ih =>
    intro l c hlen hnd hbnd hcn hff hfs
    by_cases hk : c.counter + 1 ∈ l
    · -- the next expected frame is pending: consume it and recurse
      have hlook : futLookup (c.counter + 1) c.futureframes
          = some (mkF cid d (c.counter + 1)) := by
        rw [hff]
        exact futLookup_mkF_mem cid d hk
      have hstep : drainAux (fuel + 1) c = drainAux fuel
          { c with
            buf := c.buf ++ (mkF cid d (c.counter + 1)).data
            counter := (mkF cid d (c.counter + 1)).idx
            futureframes := futErase (mkF cid d (c.counter + 1)).idx c.futureframes
            futureSize := c.futureSize - (mkF cid d (c.counter + 1)).data.length } := by
        simp only [drainAux, hlook]
      have hsum := sum_filter_ne_add (fun j => (d j).length) l hnd (c.counter + 1) hk
      obtain ⟨k', l', h2f, hctr, hbuf, hframes, hsize, herr, hclosed, hidx,
          hk1, hk2, hnd', hbnd', hchar⟩ :=
        ih (l.filter (fun j => j ≠ c.counter + 1))
          { c with
            buf := c.buf ++ (mkF cid d (c.counter + 1)).data
            counter := (mkF cid d (c.counter + 1)).idx
            futureframes := futErase (mkF cid d (c.counter + 1)).idx c.futureframes
            futureSize := c.futureSize - (mkF cid d (c.counter + 1)).data.length }
          (by have := filter_ne_length_lt (c.counter + 1) l hk; omega)
          (hnd.filter _)
          (by
            intro j hj
            have hj' := List.mem_filter.mp hj
            have hj2 : j ≠ c.counter + 1 := by simpa using hj'.2
            have := hbnd j hj'.1
            exact ⟨show c.counter + 1 + 1 ≤ j by omega, this.2⟩)
          (by
            have := (hbnd (c.counter + 1) hk).2
            show c.counter + 1 ≤ n
            omega)
          (by
            show futErase (c.counter + 1) c.futureframes = _
            rw [hff]
            exact futErase_mkF cid d (c.counter + 1) l)
          (by
            show c.futureSize - ((d (c.counter + 1)).length : Int) = _
            rw [hfs]
            have hsum' : ((l.filter (fun j => j ≠ c.counter + 1)).map
                  (fun j => (d j).length)).sum + (d (c.counter + 1)).length
                = (l.map (fun j => (d j).length)).sum := hsum
            omega)
      have hk1' : c.counter + 1 ≤ k' := hk1
      refine ⟨k', l', ?_, ?_, ?_, ?_, ?_, ?_, ?_, ?_, by omega, hk2, hnd', hbnd', ?_⟩
      · rw [hstep]; exact h2f
      · rw [hstep]; exact hctr
      · rw [hstep, hbuf]
        show (c.buf ++ d (c.counter + 1))
            ++ catMap d (List.range' (c.counter + 1 + 1) (k' - (c.counter + 1)))
          = c.buf ++ catMap d (List.range' (c.counter + 1) (k' - c.counter))
        rw [List.append_assoc]
        congr 1
        have hm : k' - c.counter = (k' - (c.counter + 1)) + 1 := by omega
        rw [hm, List.range'_succ]
        rfl
      · rw [hstep]; exact hframes
      · rw [hstep]; exact hsize
      · rw [hstep]; exact herr
      · rw [hstep]; exact hclosed
      · rw [hstep]; exact hidx
      · intro j
        have hcharj : j ∈ l.filter (fun j => j ≠ c.counter + 1)
            ↔ ((c.counter + 1 + 1 ≤ j ∧ j ≤ k') ∨ j ∈ l') := hchar j
        constructor
        · intro hj
          by_cases hje : j = c.counter + 1
          · exact Or.inl ⟨by omega, by omega⟩
          · have hj₂ : j ∈ l.filter (fun j => j ≠ c.counter + 1) :=
              List.mem_filter.mpr ⟨hj, by simpa using hje⟩
            rcases hcharj.mp hj₂ with h | h
            · exact Or.inl ⟨by omega, h.2⟩
            · exact Or.inr h
        · rintro (⟨h1, h2⟩ | hj)
          · by_cases hje : j = c.counter + 1
            · exact hje ▸ hk
            · have hj₂ : j ∈ l.filter (fun j => j ≠ c.counter + 1) :=
                hcharj.mpr (Or.inl ⟨by omega, h2⟩)
              exact (List.mem_filter.mp hj₂).1
          · have hj₂ : j ∈ l.filter (fun j => j ≠ c.counter + 1) :=
              hcharj.mpr (Or.inr hj)
            exact (List.mem_filter.mp hj₂).1
    · -- the next expected frame is missing: the loop stops, no overflow
      have hlook : futLookup (c.counter + 1) c.futureframes = none := by
        rw [hff]
        exact futLookup_mkF_not_mem cid d hk
      have hle : (l.map (fun j => (d j).length)).sum ≤ MaxWriteBufferSize := by
        have := sum_map_le_range' (fun j => (d j).length) n l hnd
          fun j hj => ⟨by have := (hbnd j hj).1; omega, (hbnd j hj).2⟩
        omega
      have hr : drainAux (fuel + 1) c = (c, false) := by
        simp only [drainAux, hlook]
        rw [if_neg (by rw [hfs]; omega)]
      refine ⟨c.counter, l, ?_, ?_, ?_, ?_, ?_, ?_, ?_, ?_,
        le_refl _, hcn, hnd, ?_, ?_⟩
      · rw [hr]
      · rw [hr]
      · rw [hr, Nat.sub_self]
        exact (List.append_nil _).symm
      · rw [hr]; exact hff
      · rw [hr]; exact hfs
      · rw [hr]
      · rw [hr]
      · rw [hr]
      · intro j hj
        have h1 := hbnd j hj
        have h2 : j ≠ c.counter + 1 := fun he => hk (he ▸ hj)
        exact ⟨by omega, h1.2⟩
      · intro j
        constructor
        · intro hj
          exact Or.inr hj
        · rintro (⟨h1, h2⟩ | hj)
          · omega
          · exact hj

/-- The state invariant of a read side that has processed exactly the
payload frames with indices in `S` (out of `1..n`): the counter sits at
the longest delivered prefix `k`, the buffer holds the payloads of
`1..k` in order, and the future map holds exactly the processed indices
beyond `k + 1`. -/
def c1Inv (cid n : Nat) (d : Nat → List Nat) (S : List Nat) (c : readConn) : Prop :=
  ∃ (k : Nat) (l : List Nat),
    k ≤ n ∧
    c.counter = k ∧
    c.buf = catMap d (List.range' 1 k) ∧
    c.futureframes = l.map (mkF cid d) ∧
    c.futureSize = (((l.map (fun j => (d j).length)).sum : Nat) : Int) ∧
    l.Nodup ∧
    (∀ j ∈ l, k + 2 ≤ j ∧ j ≤ n) ∧
    (∀ j, j ∈ S ↔ ((1 ≤ j ∧ j ≤ k) ∨ j ∈ l)) ∧
    c.err = none ∧ c.closed = false ∧ c.idx = cid

lemma c1Inv_init (cid n : Nat) (d : Nat → List Nat) :
    c1Inv cid n d [] (newReadConn cid) := by
  refine ⟨0, [], Nat.zero_le n, rfl, rfl, rfl, rfl, List.nodup_nil, ?_, ?_,
    rfl, rfl, rfl⟩
  · intro j hj
    cases hj
  · intro j
    simp
    omega

lemma c1_step (cid n : Nat) (d : Nat → List Nat)
    (hB : ((List.range' 1 n).map (fun j => (d j).length)).sum ≤ MaxWriteBufferSize)
    (S : List Nat) (c : readConn) (j : Nat)
    (hInv : c1Inv cid n d S c) (hjS : j ∉ S) (hj1 : 1 ≤ j) (hjn : j ≤ n) :
    ∃ c', readLoopStep c (mkF cid d j) = (c', true) ∧
      c1Inv cid n d (j :: S) c' := by
  obtain ⟨k, l, hkn, hctr, hbuf, hff, hfs, hnd, hbnd, hSchar, herr, hcl, hidx⟩ := hInv
  have hjk : k < j := by
    by_contra hle
    exact hjS ((hSchar j).mpr (Or.inl ⟨hj1, by omega⟩))
  have hjl : j ∉ l := fun hjl => hjS ((hSchar j).mpr (Or.inr hjl))
  have hfresh : ∀ g ∈ c.futureframes, g.idx ≠ (mkF cid d j).idx := by
    rw [hff]
    intro g hg
    obtain ⟨i, hi, rfl⟩ := List.mem_map.mp hg
    show i ≠ j
    exact fun he => hjl (he ▸ hi)
  have hXff : futInsert (mkF cid d j) c.futureframes = (j :: l).map (mkF cid d) := by
    rw [futInsert_of_fresh hfresh, hff, List.map_cons]
  obtain ⟨k', l', h2f, hctr', hbuf', hff', hfs', herr', hcl', hidx',
      hk1, hk2, hnd'', hbnd'', hchar'⟩ :=
    c1_drainAux cid d n hB
      ((futInsert (mkF cid d j) c.futureframes).length + 1) (j :: l)
      { c with
        futureframes := futInsert (mkF cid d j) c.futureframes
        futureSize := c.futureSize + ((mkF cid d j).data.length : Int) }
      (by
        have hl1 : (futInsert (mkF cid d j) c.futureframes).length
            = (j :: l).length := by
          rw [hXff, List.length_map]
        omega)
      (List.nodup_cons.mpr ⟨hjl, hnd⟩)
      (by
        show ∀ i ∈ j :: l, c.counter + 1 ≤ i ∧ i ≤ n
        intro i hi
        rcases List.mem_cons.mp hi with rfl | hi'
        · exact ⟨by rw [hctr]; omega, hjn⟩
        · have := hbnd i hi'
          exact ⟨by rw [hctr]; omega, this.2⟩)
      (by show c.counter ≤ n; rw [hctr]; omega)
      (by
        show futInsert (mkF cid d j) c.futureframes = _
        exact hXff)
      (by
        show c.futureSize + ((d j).length : Int) = _
        rw [hfs]
        have hsum2 : ((j :: l).map (fun i => (d i).length)).sum
            = (d j).length + (l.map (fun i => (d i).length)).sum := by
          rw [List.map_cons, List.sum_cons]
        omega)
  cases hdl : drainLoop
      { c with
        futureframes := futInsert (mkF cid d j) c.futureframes
        futureSize := c.futureSize + ((mkF cid d j).data.length : Int) } with
  | mk c2 fl =>
    have hdA : drainAux ((futInsert (mkF cid d j) c.futureframes).length + 1)
        { c with
          futureframes := futInsert (mkF cid d j) c.futureframes
          futureSize := c.futureSize + ((mkF cid d j).data.length : Int) }
        = (c2, fl) := hdl
    have hfl : fl = false := by
      have h := h2f
      rw [hdA] at h
      exact h
    subst hfl
    have hstep : readLoopStep c (mkF cid d j) = (c2, true) := by
      unfold readLoopStep
      rw [if_neg (fun h => h hidx.symm),
        if_neg (show ¬((mkF cid d j).idx ≤ c.counter) from by
          show ¬(j ≤ c.counter)
          rw [hctr]
          omega)]
      simp only [hdl]
    rw [hdA] at hctr' hbuf' hff' hfs' herr' hcl' hidx'
    have hkk' : k ≤ k' := by
      have h1 : c.counter ≤ k' := hk1
      rw [hctr] at h1
      exact h1
    have hjk' : j ≤ k' ∨ j ∈ l' := by
      have h := (hchar' j).mp (List.mem_cons_self j l)
      rcases h with h | h
      · exact Or.inl h.2
      · exact Or.inr h
    have hchar2 : ∀ i, i ∈ j :: l ↔ ((c.counter + 1 ≤ i ∧ i ≤ k') ∨ i ∈ l') :=
      hchar'
    simp only [hctr] at hchar2
    refine ⟨c2, hstep, k', l', hk2, hctr', ?_, hff', hfs', hnd'', hbnd'',
      ?_, herr'.trans herr, hcl'.trans hcl, hidx'.trans hidx⟩
    · -- buffer: prefix `1..k` extended by `k+1..k'`
      have hbuf2 : c2.buf
          = c.buf ++ catMap d (List.range' (c.counter + 1) (k' - c.counter)) :=
        hbuf'
      rw [hctr, hbuf] at hbuf2
      rw [hbuf2, ← catMap_append]
      congr 1
      have h3 := List.range'_append_1 1 k (k' - k)
      rw [Nat.add_comm 1 k] at h3
      rw [show (k' - k) + k = k' from by omega] at h3
      exact h3
    · -- membership characterization for `j :: S`
      intro i
      constructor
      · intro hi
        rcases List.mem_cons.mp hi with rfl | hiS
        · rcases (hchar2 i).mp (List.mem_cons_self i l) with h | h
          · exact Or.inl ⟨by omega, h.2⟩
          · exact Or.inr h
        · rcases (hSchar i).mp hiS with ⟨h1, h2⟩ | hil
          · exact Or.inl ⟨h1, by omega⟩
          · rcases (hchar2 i).mp (List.mem_cons_of_mem j hil) with h | h
            · exact Or.inl ⟨by omega, h.2⟩
            · exact Or.inr h
      · rintro (⟨h1, h2⟩ | hil')
        · by_cases hik : i ≤ k
          · exact List.mem_cons_of_mem j ((hSchar i).mpr (Or.inl ⟨h1, hik⟩))
          · have hin : i ∈ j :: l := (hchar2 i).mpr (Or.inl ⟨by omega, h2⟩)
            rcases List.mem_cons.mp hin with rfl | hil
            · exact List.mem_cons_self _ _
            · exact List.mem_cons_of_mem j ((hSchar i).mpr (Or.inr hil))
        · have hin : i ∈ j :: l := (hchar2 i).mpr (Or.inr hil')
          rcases List.mem_cons.mp hin with rfl | hil
          · exact List.mem_cons_self _ _
          · exact List.mem_cons_of_mem j ((hSchar i).mpr (Or.inr hil))

lemma c1_run (cid n : Nat) (d : Nat → List Nat)
    (hB : ((List.range' 1 n).map (fun j => (d j).length)).sum ≤ MaxWriteBufferSize)
    (arr : List Nat) :
    ∀ (S : List Nat) (c : readConn),
      c1Inv cid n d S c → arr.Nodup →
      (∀ j ∈ arr, j ∉ S ∧ 1 ≤ j ∧ j ≤ n) →
      ∃ S', (∀ j, j ∈ S' ↔ (j ∈ arr ∨ j ∈ S)) ∧
        c1Inv cid n d S' (readLoopRun c (arr.map (mkF cid d))) := by
  induction arr with
  | nil =>
    intro S c h _ _
    exact ⟨S, fun j => by simp, h⟩
  | cons j arr' ih =>
    intro S c h hnd hmem
    rw [List.nodup_cons] at hnd
    obtain ⟨hjS, hj1, hjn⟩ := hmem j (List.mem_cons_self j arr')
    obtain ⟨c', hstep, hinv'⟩ := c1_step cid n d hB S c j h hjS hj1 hjn
    have hrun : readLoopRun c ((j :: arr').map (mkF cid d))
        = readLoopRun c' (arr'.map (mkF cid d)) := by
      rw [List.map_cons]
      simp only [readLoopRun, hstep]
    rw [hrun]
    obtain ⟨S', hS', hinv''⟩ := ih (j :: S) c' hinv' hnd.2
      (by
        intro i hi
        obtain ⟨hiS, hi1, hin⟩ := hmem i (List.mem_cons_of_mem j hi)
        refine ⟨?_, hi1, hin⟩
        intro hmem2
        rcases List.mem_cons.mp hmem2 with rfl | h2
        · exact hnd.1 hi
        · exact hiS h2)
    refine ⟨S', ?_, hinv''⟩
    intro i
    rw [hS' i]
    simp [List.mem_cons]
    tauto

/-- C1: for a virtual connection whose writer emits payload frames with
indices `1..n` and payloads `d 1, …, d n` (each frame's `idx` is the
writer counter plus one — no gaps, no duplicates), and whose total
payload fits the future-frames cap (`MaxWriteBufferSize`; past it the
code deliberately turns missing-frame overflow into a fatal error, spec
§4.4), the reassembly loop started on a fresh `readConn` delivers, for
**every** arrival order `arr` of those frames, exactly
`d 1 ++ d 2 ++ … ++ d n` into the read buffer: the final counter is
`n`, the future map is empty, no error was raised, and a `Read` of the
full buffer returns precisely those bytes.  Moreover (mechanism), the
drain loop appends a frame's data only when its `idx` equals
`counter + 1`, and then advances `counter` to exactly that `idx`. -/
theorem C1_ordered_delivery (cid n : Nat) (d : Nat → List Nat) (arr : List Nat)
    (hperm : arr.Perm (List.range' 1 n))
    (hB : ((List.range' 1 n).map (fun j => (d j).length)).sum
        ≤ MaxWriteBufferSize) :
    (readLoopRun (newReadConn cid) (arr.map (mkF cid d))).buf
        = catMap d (List.range' 1 n) ∧
    (readLoopRun (newReadConn cid) (arr.map (mkF cid d))).counter = n ∧
    (readLoopRun (newReadConn cid) (arr.map (mkF cid d))).futureframes = [] ∧
    (readLoopRun (newReadConn cid) (arr.map (mkF cid d))).err = none ∧
    (readLoopRun (newReadConn cid) (arr.map (mkF cid d))).closed = false ∧
    (catMap d (List.range' 1 n) ≠ [] →
      (rcRead (readLoopRun (newReadConn cid) (arr.map (mkF cid d)))
          (catMap d (List.range' 1 n)).length false).1
        = .bytes (catMap d (List.range' 1 n))) ∧
    (∀ (fuel : Nat) (c : readConn),
        futLookup (c.counter + 1) c.futureframes = none →
        (drainAux fuel c).1.buf = c.buf ∧
        (drainAux fuel c).1.counter = c.counter) ∧
    (∀ (fuel : Nat) (c : readConn) (f : frame),
        futLookup (c.counter + 1) c.futureframes = some f →
        f.idx = c.counter + 1 ∧
        drainAux (fuel + 1) c = drainAux fuel
          { c with
            buf := c.buf ++ f.data
            counter := f.idx
            futureframes := futErase f.idx c.futureframes
            futureSize := c.futureSize - f.data.length }) := by
  have harrnd : arr.Nodup := hperm.nodup_iff.mpr (List.nodup_range' 1 n)
  have harrmem : ∀ j ∈ arr, j ∉ ([] : List Nat) ∧ 1 ≤ j ∧ j ≤ n := by
    intro j hj
    have := hperm.mem_iff.mp hj
    rw [List.mem_range'_1] at this
    exact ⟨List.not_mem_nil j, by omega, by omega⟩
  obtain ⟨S', hS', hinv⟩ :=
    c1_run cid n d hB arr [] (newReadConn cid) (c1Inv_init cid n d)
      harrnd harrmem
  obtain ⟨k, l, hkn, hctr, hbuf, hff, hfs, hnd, hbnd, hSchar, herr, hcl, _⟩ :=
    hinv
  have hSrange : ∀ i, i ∈ S' ↔ (1 ≤ i ∧ i ≤ n) := by
    intro i
    rw [hS' i]
    simp only [List.not_mem_nil, or_false]
    rw [hperm.mem_iff, List.mem_range'_1]
    omega
  have hk : k = n := by
    by_contra hne
    have hkn' : k < n := lt_of_le_of_ne hkn hne
    have h1 : k + 1 ∈ S' := (hSrange _).mpr ⟨by omega, by omega⟩
    rcases (hSchar _).mp h1 with ⟨_, h2⟩ | h2
    · omega
    · have := hbnd _ h2
      omega
  subst hk
  have hl : l = [] := by
    rw [List.eq_nil_iff_forall_not_mem]
    intro a ha
    have h1 := hbnd a ha
    have h2 : a ∈ S' := (hSchar a).mpr (Or.inr ha)
    rw [hSrange a] at h2
    omega
  subst hl
  have hffnil : (readLoopRun (newReadConn cid) (arr.map (mkF cid d))).futureframes
      = [] := hff
  refine ⟨hbuf, hctr, hffnil, herr, hcl, ?_, ?_, ?_⟩
  · intro hne
    have hlen : 0 < (readLoopRun (newReadConn cid) (arr.map (mkF cid d))).buf.length := by
      rw [hbuf]
      exact List.length_pos.mpr hne
    unfold rcRead
    rw [hcl, herr]
    simp only [Bool.false_eq_true, if_false]
    rw [if_pos hlen]
    simp only [hbuf]
    rw [List.take_length]
  · intro fuel c hlk
    cases fuel with
    | zero => exact ⟨rfl, rfl⟩
    | succ fuel =>
      have : drainAux (fuel + 1) c = (c, (drainAux (fuel + 1) c).2) := by
        simp only [drainAux, hlk]
        split <;> rfl
      constructor
      · rw [this]
      · rw [this]
  · intro fuel c f hlk
    refine ⟨(futLookup_some hlk).2, ?_⟩
    simp only [drainAux, hlk]

/-- Witness for C1: three one-byte frames arriving in the order
`2, 3, 1` are delivered as `d 1 ++ d 2 ++ d 3` with the counter at 3. -/
theorem C1_ordered_delivery_witness :
    ([2, 3, 1] : List Nat).Perm (List.range' 1 3) ∧
    ((List.range' 1 3).map (fun j => ([j] : List Nat).length)).sum
      ≤ MaxWriteBufferSize ∧
    (readLoopRun (newReadConn 8)
        (([2, 3, 1] : List Nat).map (mkF 8 (fun j => [j])))).buf
      = catMap (fun j => [j]) (List.range' 1 3) ∧
    (readLoopRun (newReadConn 8)
        (([2, 3, 1] : List Nat).map (mkF 8 (fun j => [j])))).counter = 3 :=
  ⟨by decide, by decide,
    (C1_ordered_delivery 8 3 (fun j => [j]) [2, 3, 1] (by decide) (by decide)).1,
    (C1_ordered_delivery 8 3 (fun j => [j]) [2, 3, 1] (by decide) (by decide)).2.1⟩

end Toh
